import Mathlib

set_option maxHeartbeats 1000000

/-!
Verification of the evaluation harness and scoring engine of a code
generation benchmark.  The definitions below are shallow embeddings of the
TypeScript sources: score aggregation, the assertion scorers, the sandbox
executor normalization step and the cleanup coordinator.  Effectful code
(database access) is modelled by explicit state passing over an abstract
environment that fixes the outcome of each external call, with an event
trace recording which external calls were issued.
-/

namespace CodeGenEval

-- JSON-like values used for scorer metadata and index documents.
mutual

inductive JVal where
  | str : String → JVal
  | num : ℚ → JVal
  | bool : Bool → JVal
  | null : JVal
  | undefined : JVal
  | arr : JArr → JVal
  | obj : JObj → JVal

inductive JArr where
  | nil : JArr
  | cons : JVal → JArr → JArr

inductive JObj where
  | nil : JObj
  | cons : String → JVal → JObj → JObj

end

/-- Build a JSON array value out of a list of strings. -/
def strListArr : List String → JArr
  | [] => .nil
  | s :: t => .cons (.str s) (strListArr t)

/-- JSON array of strings, as a value. -/
def JVal.strList (l : List String) : JVal := .arr (strListArr l)

-- Structurally recursive implementations of the JavaScript string
-- primitives the sources rely on, over the character lists underlying
-- Lean strings, so that every definition evaluates by reduction.

/-- Split a character list at every occurrence of a separator character
(JavaScript String.prototype.split with a one-character separator). -/
def splitOnChar (sep : Char) : List Char → List (List Char)
  | [] => [[]]
  | c :: t =>
    match splitOnChar sep t with
    | [] => [[]]
    | h :: r => if c == sep then [] :: h :: r else (c :: h) :: r

/-- Split a string into its lines at newline characters. -/
def splitLines (s : String) : List String :=
  (splitOnChar '\n' s.data).map String.mk

/-- Join lines back with newline separators
(Array.prototype.join with a newline). -/
def joinNl : List String → String
  | [] => ""
  | [s] => s
  | s :: t => s ++ "\n" ++ joinNl (t)

/-- JavaScript String.prototype.startsWith. -/
def jsStartsWith (s pre : String) : Bool := pre.data.isPrefixOf s.data

/-- A single score result from a scorer: a name, a score of 1 (pass),
0 (fail) or null (not applicable, modelled as none), and diagnostic
metadata (an absent metadata object is modelled as the empty list). -/
structure ScoreResult where
  name : String
  score : Option ℚ
  metadata : List (String × JVal)

/-- Categories for grouping scores, from scorers/types.ts.  The first
constructor corresponds to the source category whose key string is the
word reserved by Lean. -/
inductive ScoreCategory where
  | synCat
  | semCat
  | execCat
  | resCat
  deriving DecidableEq, Repr

/-- The category key string of each category constant. -/
def categoryKey : ScoreCategory → String
  | .synCat => "syntax"
  | .semCat => "semantic"
  | .execCat => "execution"
  | .resCat => "result"

/-- Maps score names to their categories for aggregation
(getScoreCategory in scorers/types.ts): unknown prefixes default to the
result category. -/
def getScoreCategory (scoreName : String) : ScoreCategory :=
  if jsStartsWith scoreName "Syntax_" then .synCat
  else if jsStartsWith scoreName "Semantic_" then .semCat
  else if jsStartsWith scoreName "Execution_" then .execCat
  else if jsStartsWith scoreName "Result_" then .resCat
  else .resCat

/-- Capitalize the first letter of a string (aggregateScores helper). -/
def capitalize (str : String) : String :=
  match str.data with
  | [] => ""
  | c :: rest => String.mk (c.toUpper :: rest)

/-- Result of score aggregation. -/
structure AggregatedScores where
  individual : List ScoreResult
  categories : List ScoreResult
  compound : ScoreResult

/-- The fixed iteration order of the byCategory record in
aggregateScores. -/
def categoriesOrder : List ScoreCategory :=
  [.synCat, .semCat, .execCat, .resCat]

/-- The numeric score of a result; only applied to results whose score is
known to be non-null. -/
def scoreVal (s : ScoreResult) : ℚ := s.score.getD 0

/-- Arithmetic mean of the scores of a list of results. -/
def listAvg (l : List ScoreResult) : ℚ := (l.map scoreVal).sum / (l.length : ℚ)

/-- Aggregate individual scores into category compounds and an overall
compound, embedding aggregateScores from the aggregation utilities:
null scores are filtered out, the rest are grouped by name-derived
category, each non-empty category is averaged, and the overall compound
is the average of the category averages (0 when no category applies). -/
def aggregateScores (scores : List ScoreResult) : AggregatedScores :=
  let validScores := scores.filter fun s => s.score.isSome
  let byCategory := fun (c : ScoreCategory) =>
    validScores.filter fun s => getScoreCategory s.name == c
  let categories := categoriesOrder.filterMap fun c =>
    let categoryScores := byCategory c
    if 0 < categoryScores.length then
      some { name := capitalize (categoryKey c),
             score := some (listAvg categoryScores),
             metadata := [("count", JVal.num (categoryScores.length : ℚ)),
                          ("assertions", JVal.strList (categoryScores.map ScoreResult.name))] }
    else none
  let categoryAverages := categoriesOrder.filterMap fun c =>
    let categoryScores := byCategory c
    if 0 < categoryScores.length then some (listAvg categoryScores) else none
  let overallScore : ℚ :=
    if 0 < categoryAverages.length then
      categoryAverages.sum / (categoryAverages.length : ℚ)
    else 0
  { individual := validScores,
    categories := categories,
    compound := { name := "CompoundCodeGenScore",
                  score := some overallScore,
                  metadata := [("categoryCount", JVal.num (categoryAverages.length : ℚ)),
                               ("categories", JVal.strList (categories.map ScoreResult.name))] } }

/-- Scorer outputs: a scorer returns either a single ScoreResult or an
array of ScoreResults (the union return type of CodeGenScorer). -/
inductive ScorerOutput where
  | one : ScoreResult → ScorerOutput
  | many : List ScoreResult → ScorerOutput

/-- Flatten scorer results (which may be arrays) into a single array. -/
def flattenScores (results : List ScorerOutput) : List ScoreResult :=
  results.flatMap fun r =>
    match r with
    | .one s => [s]
    | .many l => l

/-- A pattern with a name for identification, from the case schema. -/
structure Pattern where
  pattern : String
  name : String

/-- Semantic assertions: pattern matching in generated code. -/
structure SemanticExpected where
  mustContain : Option (List Pattern)
  mustNotContain : Option (List Pattern)

/-- Execution assertions: code runs successfully. -/
structure ExecutionExpected where
  shouldSucceed : Option Bool

/-- Search index existence check, from the case schema. -/
structure SearchIndexExistsSpec where
  database : String
  collection : String
  indexName : String
  config : Option (List (String × JVal))

/-- Result assertions: verify external state after execution. -/
structure ResultExpected where
  searchIndexExists : Option SearchIndexExistsSpec

/-- All expected assertions of an eval case that the verified properties
depend on.  The schema also carries an assertion group for code shape
checks (keyed by the word reserved by Lean); none of the verified claims
mentions it, so it is not embedded. -/
structure EvalCaseExpected where
  semantic : Option SemanticExpected
  execution : Option ExecutionExpected
  result : Option ResultExpected

/-- Outcome of running one generated-code string once. -/
structure ExecutionResult where
  success : Bool
  error : Option String
  output : Option JVal
  executionTime : Option ℕ

/-- Context passed to all scorers. -/
structure ScorerContext where
  output : String
  expected : EvalCaseExpected
  executionResult : Option ExecutionResult

-- String utilities embedding the JavaScript primitives the scorers and
-- the executor rely on.

/-- Containment of a character list as a contiguous segment, embedding
String.prototype.includes on the underlying character sequences. -/
def listContains : List Char → List Char → Bool
  | [], pat => pat.isEmpty
  | c :: t, pat => pat.isPrefixOf (c :: t) || listContains t pat

/-- JavaScript String.prototype.includes: substring containment. -/
def jsIncludes (s pat : String) : Bool := listContains s.data pat.data

/-- JVal of an optional natural number: an absent field is undefined. -/
def jvalOfOptNat : Option ℕ → JVal
  | some n => .num (n : ℚ)
  | none => .undefined

/-- JVal of an optional string: an absent field is undefined. -/
def jvalOfOptStr : Option String → JVal
  | some s => .str s
  | none => .undefined

/-- JVal of an optional value: an absent field is undefined. -/
def jvalOfOpt : Option JVal → JVal
  | some v => v
  | none => .undefined

-- Semantic scorers (mustContain.ts and mustNotContain.ts).

/-- Checks that the generated code contains all required patterns, one
independently named ScoreResult per pattern; a missing or empty pattern
list yields a single not-applicable result. -/
def mustContain (context : ScorerContext) : ScorerOutput :=
  match context.expected.semantic.bind SemanticExpected.mustContain with
  | none => .one { name := "Semantic_MustContain", score := none, metadata := [] }
  | some patterns =>
    if patterns.isEmpty then
      .one { name := "Semantic_MustContain", score := none, metadata := [] }
    else
      .many (patterns.map fun p =>
        let found := jsIncludes context.output p.pattern
        { name := "Semantic_" ++ p.name,
          score := some (if found then 1 else 0),
          metadata := [("pattern", JVal.str p.pattern), ("found", JVal.bool found)] })

/-- Checks that the generated code does NOT contain forbidden patterns,
one independently named ScoreResult per pattern; a missing or empty
pattern list yields a single not-applicable result. -/
def mustNotContain (context : ScorerContext) : ScorerOutput :=
  match context.expected.semantic.bind SemanticExpected.mustNotContain with
  | none => .one { name := "Semantic_MustNotContain", score := none, metadata := [] }
  | some patterns =>
    if patterns.isEmpty then
      .one { name := "Semantic_MustNotContain", score := none, metadata := [] }
    else
      .many (patterns.map fun p =>
        let found := jsIncludes context.output p.pattern
        { name := "Semantic_" ++ p.name,
          score := some (if found then 0 else 1),
          metadata := [("pattern", JVal.str p.pattern), ("found", JVal.bool found),
                       ("reason", if found then
                          JVal.str ("Found forbidden pattern: " ++ p.pattern)
                        else JVal.undefined)] })

-- Execution scorer (succeeds.ts).

/-- Checks that the generated code executed successfully: null when the
shouldSucceed assertion is not requested, a hard fail with a diagnostic
when no execution result is available, otherwise 1 or 0 following the
success flag of the execution result. -/
def succeeds (context : ScorerContext) : ScoreResult :=
  if (context.expected.execution.bind ExecutionExpected.shouldSucceed) ≠ some true then
    { name := "Execution_Succeeds", score := none, metadata := [] }
  else
    match context.executionResult with
    | none =>
      { name := "Execution_Succeeds", score := some 0,
        metadata := [("error",
          JVal.str "Execution result not available - code was not executed")] }
    | some executionResult =>
      if executionResult.success then
        { name := "Execution_Succeeds", score := some 1,
          metadata := [("executionTime", jvalOfOptNat executionResult.executionTime),
                       ("output", jvalOfOpt executionResult.output)] }
      else
        { name := "Execution_Succeeds", score := some 0,
          metadata := [("error", jvalOfOptStr executionResult.error),
                       ("executionTime", jvalOfOptNat executionResult.executionTime)] }

-- Sandbox executor (code-executor utility): pre-execution normalization
-- of the final line, then the wrapped script run under an abstract
-- effect environment.

/-- Whitespace characters stripped by JavaScript String.prototype.trim
(the ASCII ones; the generated code is ASCII). -/
def isJsSpace (c : Char) : Bool :=
  c == ' ' || c == '\t' || c == '\n' || c == '\r' || c == '\x0b' || c == '\x0c'

/-- JavaScript String.prototype.trim. -/
def jsTrim (s : String) : String :=
  String.mk (((s.data.dropWhile isJsSpace).reverse.dropWhile isJsSpace).reverse)

/-- First character class of a JavaScript identifier as used by the
final-line pattern of the executor. -/
def isIdentStart (c : Char) : Bool := c.isAlpha || c == '_'

/-- Remaining character class of a JavaScript identifier as used by the
final-line pattern of the executor. -/
def isIdentChar (c : Char) : Bool := c.isAlphanum || c == '_'

/-- The bare-call test of the executor on the trimmed final line: a direct
implementation of the anchored pattern "identifier, open paren, optional
spaces, close paren, optional semicolon, optional spaces". -/
def matchesBareCall (line : String) : Bool :=
  match line.data with
  | [] => false
  | c :: rest =>
    isIdentStart c &&
      (match rest.dropWhile isIdentChar with
       | '(' :: r1 =>
         (match r1.dropWhile isJsSpace with
          | ')' :: r3 =>
            let r4 := match r3 with
              | ';' :: t => t
              | _ => r3
            (r4.dropWhile isJsSpace).isEmpty
          | _ => false)
       | _ => false)

/-- The heuristic normalization of the executor: if the final line of the
trimmed code is a bare non-awaited call, the trimmed code is rebuilt with
that line prefixed by await; otherwise the code is returned unchanged. -/
def normalizeFinalCall (code : String) : String :=
  let trimmedCode := jsTrim code
  let lines := splitLines trimmedCode
  let lastLine := jsTrim ((lines.getLast?).getD "")
  let isUnawaitedCall := matchesBareCall lastLine && !(jsStartsWith lastLine "await ")
  if isUnawaitedCall then
    let lastLineIndex := lines.length - 1
    let updated := lines.set lastLineIndex ("await " ++ lines.getD lastLineIndex "")
    joinNl updated
  else code

/-- The async invocation boundary the executor wraps the normalized code
in before compiling the script. -/
def wrapCode (processedCode : String) : String :=
  "\n      (async () => \x7b\n        " ++ processedCode ++ "\n      \x7d)()\n    "

-- A small exception-plus-trace model of the effectful executor body:
-- a computation takes the trace of already-issued external calls and
-- returns either a value or a thrown error message, together with the
-- extended trace.

/-- Effectful computation over an event alphabet: explicit state passing
of the event trace, with thrown JavaScript errors modelled by Except. -/
def EM (ε α : Type) := List ε → Except String α × List ε

/-- Return a value without effects. -/
def EM.pure (a : α) : EM ε α := fun tr => (.ok a, tr)

/-- Sequence two computations; a thrown error short-circuits. -/
def EM.bind (x : EM ε α) (f : α → EM ε β) : EM ε β := fun tr =>
  match x tr with
  | (.ok a, tr1) => f a tr1
  | (.error e, tr1) => (.error e, tr1)

instance monadEM : Monad (EM ε) where
  pure := EM.pure
  bind := EM.bind

/-- Issue one external call whose outcome the environment fixes: the call
is recorded on the trace, then its result is returned or thrown. -/
def EM.attempt (r : Except String α) (ev : ε) : EM ε α := fun tr =>
  (r, tr ++ [ev])

/-- JavaScript try/catch: a thrown error from the body is passed to the
handler. -/
def EM.tryCatch (body : EM ε α) (handler : String → EM ε α) : EM ε α := fun tr =>
  match body tr with
  | (.ok a, tr1) => (.ok a, tr1)
  | (.error e, tr1) => handler e tr1

/-- JavaScript try/finally: the finalizer always runs; an error thrown by
an error thrown by the finalizer replaces the outcome of the body, otherwise that outcome
stands. -/
def EM.tryFinally (body : EM ε α) (fin : EM ε Unit) : EM ε α := fun tr =>
  match body tr with
  | (.ok a, tr1) =>
    (match fin tr1 with
     | (.ok _, tr2) => (.ok a, tr2)
     | (.error e2, tr2) => (.error e2, tr2))
  | (.error e, tr1) =>
    (match fin tr1 with
     | (.ok _, tr2) => (.error e, tr2)
     | (.error e2, tr2) => (.error e2, tr2))

/-- External calls issued by the executor. -/
inductive ExecEvent where
  | connect
  | runScript
  | closeConn
  deriving DecidableEq, Repr

/-- Abstract environment fixing the outcome of each external call the
executor makes: the ambient connection string variable, the result of
connecting (client construction and connect collapsed into one step),
the result of compiling and running a given script text (a timeout is an
error like any other), the result of closing the client, and the elapsed
wall-clock time read when the result is built. -/
structure ExecEnv where
  envUri : Option String
  connect : Except String Unit
  runScript : String → Except String JVal
  closeConn : Except String Unit
  elapsed : ℕ

/-- The connection string the executor uses: the explicit parameter when
provided, else the ambient environment variable. -/
def uriOf (connectionString : Option String) (envUri : Option String) : Option String :=
  match connectionString with
  | some u => some u
  | none => envUri

/-- The error message returned when no connection string is available. -/
def noUriError : String :=
  "MongoDB connection string not provided. Set MONGODB_URI environment variable."

/-- Embedding of executeMongoDBCode: missing connection string is an
early failure result; otherwise connect, compile and run the wrapped
normalized code under try/catch (any thrown error becomes a failure
result carrying the elapsed time), with a finally block that closes the
client and swallows errors from closing.  In the source the missing-uri
check sits inside the try with the client still null, so its finally is
a no-op; the early return here is observationally the same. -/
def executeMongoDBCodeEM (env : ExecEnv) (code : String)
    (connectionString : Option String) : EM ExecEvent ExecutionResult :=
  match uriOf connectionString env.envUri with
  | none =>
    EM.pure { success := false, error := some noUriError,
              output := none, executionTime := none }
  | some _ =>
    EM.tryFinally
      (EM.tryCatch
        (do
          EM.attempt env.connect .connect
          let result ← EM.attempt
            (env.runScript (wrapCode (normalizeFinalCall code))) .runScript
          EM.pure { success := true, error := none,
                    output := some result, executionTime := some env.elapsed })
        (fun e =>
          EM.pure { success := false, error := some e,
                    output := none, executionTime := some env.elapsed }))
      (EM.tryCatch
        (do
          EM.attempt env.closeConn .closeConn
          EM.pure ())
        (fun _ => EM.pure ()))

-- Cleanup coordinator (utils/cleanup.ts).

/-- External calls issued by the cleanup coordinator. -/
inductive CleanupEvent where
  | connect
  | listIndexes
  | dropIndex
  | closeConn
  deriving DecidableEq, Repr

/-- Abstract environment for a cleanup run: whether the ambient
connection string is set, the outcome of connecting, the outcome of the
k-th listing of search index names, the outcome of the drop request, the
outcome of closing the client, and how many poll-loop iterations the
wall clock allows before the max-wait bound trips. -/
structure CleanupEnv where
  uriSet : Bool
  connect : Except String Unit
  listResults : ℕ → Except String (List String)
  dropIndex : Except String Unit
  closeConn : Except String Unit
  pollLimit : ℕ

/-- The drop spec of a cleanup entry, from the case schema. -/
structure DropSearchIndexSpec where
  database : String
  collection : String
  indexName : String

/-- Cleanup actions of an eval case, from the case schema. -/
structure EvalCaseCleanup where
  dropSearchIndex : Option DropSearchIndexSpec

/-- The polling loop of dropSearchIndex: list the indexes, return once
the target name is gone, and give up (with a logged warning) when the
wall clock runs out; k numbers the listing calls already made. -/
def pollUntilDropped (env : CleanupEnv) (indexName : String) :
    ℕ → ℕ → EM CleanupEvent Unit
  | _, 0 => EM.pure ()
  | k, fuel + 1 => do
    let currentIndexes ← EM.attempt (env.listResults k) .listIndexes
    if currentIndexes.contains indexName then
      pollUntilDropped env indexName (k + 1) fuel
    else
      EM.pure ()

/-- Embedding of dropSearchIndex from utils/cleanup.ts: no-op when the
connection string is unset; otherwise connect, list, return early when
the index does not exist, else issue the drop and poll until it is gone
or the max wait elapses.  Errors of that whole body are caught and
logged; the finally block closes the client without its own handler.
The database, collection and maxWaitSeconds arguments select handles and
the wall-clock bound, which the abstract environment already fixes. -/
def dropSearchIndexEM (env : CleanupEnv)
    (database collection indexName : String) (maxWaitSeconds : ℕ) :
    EM CleanupEvent Unit :=
  if !env.uriSet then EM.pure ()
  else
    EM.tryFinally
      (EM.tryCatch
        (do
          EM.attempt env.connect .connect
          let indexes ← EM.attempt (env.listResults 0) .listIndexes
          if indexes.contains indexName then do
            EM.attempt env.dropIndex .dropIndex
            pollUntilDropped env indexName 1 env.pollLimit
          else
            EM.pure ())
        (fun _ => EM.pure ()))
      (do
        EM.attempt env.closeConn .closeConn
        EM.pure ())

/-- Embedding of runCleanup from utils/cleanup.ts: nothing to do when the
case has no cleanup entry or no drop spec. -/
def runCleanupEM (env : CleanupEnv) (cleanup : Option EvalCaseCleanup)
    (maxWaitSeconds : ℕ) : EM CleanupEvent Unit :=
  match cleanup with
  | none => EM.pure ()
  | some c =>
    match c.dropSearchIndex with
    | none => EM.pure ()
    | some d =>
      dropSearchIndexEM env d.database d.collection d.indexName maxWaitSeconds

-- Result verifier (scorers/result/searchIndexExists.ts).

mutual

/-- Structural equality of JSON values, the model of comparing the
serialized forms of two values. -/
def JVal.beq : JVal → JVal → Bool
  | .str a, .str b => a == b
  | .num a, .num b => a == b
  | .bool a, .bool b => a == b
  | .null, .null => true
  | .undefined, .undefined => true
  | .arr a, .arr b => JArr.beq a b
  | .obj a, .obj b => JObj.beq a b
  | _, _ => false

/-- Structural equality of JSON arrays. -/
def JArr.beq : JArr → JArr → Bool
  | .nil, .nil => true
  | .cons a t, .cons b u => JVal.beq a b && JArr.beq t u
  | _, _ => false

/-- Structural equality of JSON objects (field order matters, as it does
for serialized forms). -/
def JObj.beq : JObj → JObj → Bool
  | .nil, .nil => true
  | .cons k a t, .cons k2 b u => k == k2 && JVal.beq a b && JObj.beq t u
  | _, _ => false

end

/-- Look up a field of a JSON object. -/
def jobjLookup : JObj → String → Option JVal
  | .nil, _ => none
  | .cons k v t, key => if k == key then some v else jobjLookup t key

/-- Get a nested value from an object using dot notation (the
getNestedValue helper): descending through anything that is not an
object yields undefined. -/
def getNestedValue (v : JVal) (path : String) : Option JVal :=
  ((splitOnChar '.' path.data).map String.mk).foldl
    (fun current key =>
      match current with
      | some (.obj o) => jobjLookup o key
      | _ => none)
    (some v)

/-- Equality of two possibly-undefined values under serialization: both
undefined compare equal, one undefined differs from any value. -/
def jsonEqOpt : Option JVal → Option JVal → Bool
  | none, none => true
  | some a, some b => JVal.beq a b
  | _, _ => false

/-- Replace every dot of a config key by an underscore, as the verifier
does when naming per-field results. -/
def underscoreDots (key : String) : String :=
  String.mk (key.data.map fun c => if c == '.' then '_' else c)

/-- A search index returned by the artifact listing: its name and its
full document, against which config fields are compared. -/
structure FoundIndex where
  name : String
  doc : JObj

/-- Whether the optional execution result exists and reports success. -/
def execSucceeded : Option ExecutionResult → Bool
  | some r => r.success
  | none => false

/-- Abstract environment for one verification run: whether the ambient
connection string is set, the outcome of connecting, the outcome of
listing the search indexes, and the outcome of closing the client. -/
structure VerifyEnv where
  uriSet : Bool
  connect : Except String Unit
  listResult : Except String (List FoundIndex)
  closeConn : Except String Unit

/-- Embedding of the searchIndexExists scorer: not applicable without a
declared expectation; a hard fail without touching the external system
when execution did not succeed or the connection string is unset;
otherwise list the indexes, fail with the available names when the
expected one is absent, else report existence and compare each declared
config field by dot path; thrown errors become a failing result and the
finally block closes the client. -/
def searchIndexExistsEM (env : VerifyEnv) (context : ScorerContext) :
    EM CleanupEvent ScorerOutput :=
  match context.expected.result.bind ResultExpected.searchIndexExists with
  | none =>
    EM.pure (.one { name := "Result_SearchIndexExists", score := none, metadata := [] })
  | some indexConfig =>
    if !(execSucceeded context.executionResult) then
      EM.pure (.one
        { name := "Result_SearchIndexExists", score := some 0,
          metadata := [("reason",
            JVal.str "Cannot verify index - code execution failed")] })
    else if !env.uriSet then
      EM.pure (.one
        { name := "Result_SearchIndexExists", score := some 0,
          metadata := [("error",
            JVal.str "MONGODB_URI environment variable not set")] })
    else
      EM.tryFinally
        (EM.tryCatch
          (do
            EM.attempt env.connect .connect
            let indexes ← EM.attempt env.listResult .listIndexes
            match indexes.find? (fun idx => idx.name == indexConfig.indexName) with
            | none =>
              EM.pure (.many
                [{ name := "Result_SearchIndexExists", score := some 0,
                   metadata := [("reason",
                     JVal.str ("Index \"" ++ indexConfig.indexName ++ "\" not found")),
                     ("availableIndexes",
                       JVal.strList (indexes.map FoundIndex.name))] }])
            | some foundIndex =>
              let existsResult : ScoreResult :=
                { name := "Result_SearchIndexExists", score := some 1,
                  metadata := [("indexName", JVal.str foundIndex.name),
                    ("status", jvalOfOpt (jobjLookup foundIndex.doc "status"))] }
              let configResults : List ScoreResult :=
                match indexConfig.config with
                | none => []
                | some entries => entries.map fun kv =>
                  let actualValue := getNestedValue (.obj foundIndex.doc) kv.1
                  let matched := jsonEqOpt actualValue (some kv.2)
                  { name := "Result_SearchIndexConfig_" ++ underscoreDots kv.1,
                    score := some (if matched then 1 else 0),
                    metadata := [("key", JVal.str kv.1), ("expected", kv.2),
                      ("actual", jvalOfOpt actualValue)] }
              EM.pure (.many (existsResult :: configResults)))
          (fun e =>
            EM.pure (.one
              { name := "Result_SearchIndexExists", score := some 0,
                metadata := [("error", JVal.str e)] })))
        (do
          EM.attempt env.closeConn .closeConn
          EM.pure ())

-- Helper lemmas shared by the claim theorems.

/-- Substring containment computed by listContains agrees with the
mathematical infix relation on character lists. -/
theorem listContains_iff_infixRel (hay pat : List Char) :
    listContains hay pat = true ↔ pat <:+: hay := by
  induction hay with
  | nil => simp [listContains]
  | cons c t ih => simp [listContains, List.infix_cons_iff, ih]

/-- jsIncludes is the decision procedure for infix containment of the
underlying character lists. -/
theorem jsIncludes_eq_decide (s pat : String) :
    jsIncludes s pat = decide (pat.data <:+: s.data) := by
  by_cases h : pat.data <:+: s.data
  · simp [jsIncludes, (listContains_iff_infixRel s.data pat.data).mpr h, h]
  · have hf : ¬ listContains s.data pat.data = true := fun hc =>
      h ((listContains_iff_infixRel s.data pat.data).mp hc)
    simp [jsIncludes, Bool.eq_false_iff.mpr hf, h]

/-- filterMap of a guarded some is a filter followed by a map. -/
theorem filterMap_ite {α β : Type} (l : List α) (p : α → Prop) [DecidablePred p]
    (g : α → β) :
    (l.filterMap fun c => if p c then some (g c) else none) =
      (l.filter fun c => decide (p c)).map g := by
  induction l with
  | nil => simp
  | cons a t ih => by_cases h : p a <;> simp [h, ih]

/-- Setting the last element of a non-empty list. -/
theorem set_last_eq {α : Type} (l : List α) (v : α) (h : l ≠ []) :
    l.set (l.length - 1) v = l.dropLast ++ [v] := by
  induction l with
  | nil => exact absurd rfl h
  | cons a t ih =>
    cases t with
    | nil => simp
    | cons b u =>
      have ih2 := ih (List.cons_ne_nil b u)
      simp only [List.length_cons, Nat.add_sub_cancel] at ih2 ⊢
      simp only [List.set, List.dropLast_cons₂, List.cons_append]
      exact congrArg (a :: ·) ih2

/-- The default-valued index of the last position of a non-empty list is
its last element. -/
theorem getD_last_eq {α : Type} (l : List α) (d : α) (h : l ≠ []) :
    l.getD (l.length - 1) d = l.getLast?.getD d := by
  induction l with
  | nil => exact absurd rfl h
  | cons a t ih =>
    cases t with
    | nil => simp [List.getD]
    | cons b u =>
      have ih2 := ih (List.cons_ne_nil b u)
      simp only [List.length_cons, Nat.add_sub_cancel] at ih2 ⊢
      simpa [List.getD] using ih2

/-- Positivity of a list length, decided, is non-emptiness. -/
theorem decide_pos_length {α : Type} (l : List α) :
    decide (0 < l.length) = !l.isEmpty := by
  cases l <;> simp

/-- The non-null scores of a category: the claim-side description of the
members of one category compound. -/
def applicableIn (scores : List ScoreResult) (c : ScoreCategory) : List ScoreResult :=
  scores.filter fun s => (getScoreCategory s.name == c) && s.score.isSome

/-- The category compound entry the aggregator materializes for a
non-empty category. -/
def categoryEntry (scores : List ScoreResult) (c : ScoreCategory) : ScoreResult :=
  { name := capitalize (categoryKey c),
    score := some (listAvg (applicableIn scores c)),
    metadata := [("count", JVal.num ((applicableIn scores c).length : ℚ)),
                 ("assertions", JVal.strList ((applicableIn scores c).map ScoreResult.name))] }

/-- The categories with at least one applicable assertion, in the fixed
grouping order. -/
def presentCategories (scores : List ScoreResult) : List ScoreCategory :=
  categoriesOrder.filter fun c => decide (0 < (applicableIn scores c).length)

/-- Unfolding of the individual component of the aggregator. -/
theorem agg_individual (scores : List ScoreResult) :
    (aggregateScores scores).individual = scores.filter fun s => s.score.isSome := rfl

/-- The grouping computed inside the aggregator, before null filtering
is fused: filtering valid scores by a category. -/
def groupIn (scores : List ScoreResult) (c : ScoreCategory) : List ScoreResult :=
  (scores.filter fun s => s.score.isSome).filter fun s => getScoreCategory s.name == c

/-- Grouping the valid scores coincides with filtering the raw input by
the conjunction of category membership and non-nullity. -/
theorem groupIn_eq_applicableIn (scores : List ScoreResult) (c : ScoreCategory) :
    groupIn scores c = applicableIn scores c := by
  simp only [groupIn, applicableIn, List.filter_filter]

/-- Unfolding of the categories component of the aggregator: one entry
per present category, in the fixed order. -/
theorem agg_categories (scores : List ScoreResult) :
    (aggregateScores scores).categories =
      (presentCategories scores).map (categoryEntry scores) := by
  have h0 : (aggregateScores scores).categories =
      categoriesOrder.filterMap (fun c =>
        if 0 < (groupIn scores c).length then
          some ({ name := capitalize (categoryKey c),
                  score := some (listAvg (groupIn scores c)),
                  metadata := [("count", JVal.num ((groupIn scores c).length : ℚ)),
                               ("assertions",
                                 JVal.strList ((groupIn scores c).map ScoreResult.name))] }
            : ScoreResult)
        else none) := rfl
  rw [h0, filterMap_ite categoriesOrder (fun c => 0 < (groupIn scores c).length)]
  simp only [groupIn_eq_applicableIn]
  rfl

/-- The list of category averages the aggregator computes internally. -/
def categoryAvgList (scores : List ScoreResult) : List ℚ :=
  (presentCategories scores).map fun c => listAvg (applicableIn scores c)

/-- Unfolding of the internal category-averages list. -/
theorem agg_categoryAverages (scores : List ScoreResult) :
    (categoriesOrder.filterMap fun c =>
        if 0 < (groupIn scores c).length then some (listAvg (groupIn scores c)) else none) =
      categoryAvgList scores := by
  rw [filterMap_ite categoriesOrder (fun c => 0 < (groupIn scores c).length)]
  simp only [groupIn_eq_applicableIn]
  rfl

/-- Unfolding of the compound component of the aggregator. -/
theorem agg_compound (scores : List ScoreResult) :
    (aggregateScores scores).compound =
      { name := "CompoundCodeGenScore",
        score := some
          (if 0 < (categoryAvgList scores).length then
            (categoryAvgList scores).sum / (((categoryAvgList scores).length : ℚ))
          else 0),
        metadata := [("categoryCount", JVal.num (((categoryAvgList scores).length : ℚ))),
          ("categories",
            JVal.strList (((presentCategories scores).map (categoryEntry scores)).map
              ScoreResult.name))] } := by
  have h0 : (aggregateScores scores).compound =
      { name := "CompoundCodeGenScore",
        score := some
          (if 0 < (categoriesOrder.filterMap fun c =>
                if 0 < (groupIn scores c).length then some (listAvg (groupIn scores c))
                else none).length then
            (categoriesOrder.filterMap fun c =>
                if 0 < (groupIn scores c).length then some (listAvg (groupIn scores c))
                else none).sum /
              (((categoriesOrder.filterMap fun c =>
                  if 0 < (groupIn scores c).length then some (listAvg (groupIn scores c))
                  else none).length : ℚ))
          else 0),
        metadata := [("categoryCount",
            JVal.num (((categoriesOrder.filterMap fun c =>
              if 0 < (groupIn scores c).length then some (listAvg (groupIn scores c))
              else none).length : ℚ))),
          ("categories",
            JVal.strList (((aggregateScores scores).categories).map ScoreResult.name))] } := rfl
  rw [h0, agg_categoryAverages, agg_categories]

/-- The capitalized category names are pairwise distinct. -/
theorem capKey_inj (c c' : ScoreCategory)
    (h : capitalize (categoryKey c) = capitalize (categoryKey c')) : c = c' := by
  cases c <;> cases c' <;> first
    | rfl
    | exact absurd h (by decide)

/-- The non-null scores of the aggregated categories list are the
internal category averages. -/
theorem agg_scoreVals (scores : List ScoreResult) :
    ((aggregateScores scores).categories).map scoreVal = categoryAvgList scores := by
  rw [agg_categories]
  simp only [List.map_map]
  rfl

/-- The aggregated categories list is as long as the internal list of
category averages. -/
theorem agg_categories_length (scores : List ScoreResult) :
    ((aggregateScores scores).categories).length = (categoryAvgList scores).length := by
  rw [agg_categories]
  simp [categoryAvgList]

/-- C1: the aggregate operation computes each category compound as the
arithmetic mean of the non-null scores whose names fall in that
category, omits every category with zero applicable assertions from the
categories list (hence from the overall compound), and computes the
overall compound as the arithmetic mean of the materialized category
compounds, one equal weight per category. -/
theorem aggregateScores_meanOfMeans (scores : List ScoreResult) :
    ((aggregateScores scores).categories =
      (categoriesOrder.filter fun c => !(applicableIn scores c).isEmpty).map
        (categoryEntry scores)) ∧
    (∀ c : ScoreCategory, applicableIn scores c = [] →
      capitalize (categoryKey c) ∉
        ((aggregateScores scores).categories.map ScoreResult.name)) ∧
    ((aggregateScores scores).compound.score =
      some ((((aggregateScores scores).categories).map scoreVal).sum /
        ((((aggregateScores scores).categories).length : ℚ)))) := by
  refine ⟨?_, ?_, ?_⟩
  · rw [agg_categories]
    simp only [presentCategories, decide_pos_length]
  · intro c hc hmem
    rw [agg_categories, List.map_map] at hmem
    rcases List.mem_map.mp hmem with ⟨c', hc', hname⟩
    have : c' = c := capKey_inj c' c hname
    subst this
    have := List.of_mem_filter hc'
    rw [hc] at this
    simp at this
  · rw [agg_scoreVals, agg_categories_length]
    have h := agg_compound scores
    by_cases hp : 0 < (categoryAvgList scores).length
    · rw [h]
      simp [hp]
    · have hnil : categoryAvgList scores = [] :=
        List.eq_nil_of_length_eq_zero (Nat.eq_zero_of_not_pos hp)
      rw [h, hnil]
      simp

/-- Demonstration scores for applying the aggregation theorems: two
applicable assertions in distinct categories and one inapplicable one. -/
def demoScores : List ScoreResult :=
  [{ name := "Syntax_A", score := some 1, metadata := [] },
   { name := "Execution_Succeeds", score := some 0, metadata := [] },
   { name := "Semantic_B", score := none, metadata := [] }]

/-- Witness for C1 at a concrete score list: the semantic category has
no applicable assertion and is omitted, and the compound is the mean of
the materialized category compounds. -/
theorem aggregateScores_meanOfMeans_witness :
    (capitalize (categoryKey ScoreCategory.semCat) ∉
      ((aggregateScores demoScores).categories.map ScoreResult.name)) ∧
    ((aggregateScores demoScores).compound.score =
      some ((((aggregateScores demoScores).categories).map scoreVal).sum /
        ((((aggregateScores demoScores).categories).length : ℚ)))) :=
  ⟨(aggregateScores_meanOfMeans demoScores).2.1 ScoreCategory.semCat rfl,
   (aggregateScores_meanOfMeans demoScores).2.2⟩

/-- C2: after aggregation no null-scored entry appears among the
individual scores, none among the category compounds, the compound score
itself is never null, and the aggregate of the pre-filtered input
coincides with the aggregate of the raw input, so null entries
contribute nothing anywhere. -/
theorem aggregateScores_noNull (scores : List ScoreResult) :
    (∀ s ∈ (aggregateScores scores).individual, s.score ≠ none) ∧
    (∀ s ∈ (aggregateScores scores).categories, s.score ≠ none) ∧
    ((aggregateScores scores).compound.score ≠ none) ∧
    aggregateScores (scores.filter fun s => s.score.isSome) = aggregateScores scores := by
  refine ⟨?_, ?_, ?_, ?_⟩
  · intro s hs
    rw [agg_individual] at hs
    have := List.of_mem_filter hs
    exact Option.isSome_iff_ne_none.mp this
  · intro s hs
    rw [agg_categories] at hs
    rcases List.mem_map.mp hs with ⟨c, _, rfl⟩
    simp [categoryEntry]
  · rw [agg_compound]
    simp
  · have h : ((scores.filter fun s => s.score.isSome).filter fun s => s.score.isSome) =
        scores.filter fun s => s.score.isSome := by
      simp [List.filter_filter]
    unfold aggregateScores
    rw [h]

/-- Witness for C2 at a concrete score list: the only surviving
individual entry is non-null, and pre-filtering nulls changes nothing. -/
theorem aggregateScores_noNull_witness :
    (({ name := "Syntax_A", score := some 1, metadata := [] } : ScoreResult).score ≠ none) ∧
    aggregateScores (demoScores.filter fun s => s.score.isSome) =
      aggregateScores demoScores := by
  constructor
  · have hmem : ({ name := "Syntax_A", score := some 1, metadata := [] } : ScoreResult) ∈
        (aggregateScores demoScores).individual := by
      have h : (aggregateScores demoScores).individual =
          [{ name := "Syntax_A", score := some 1, metadata := [] },
           { name := "Execution_Succeeds", score := some 0, metadata := [] }] := rfl
      rw [h]
      exact List.mem_cons_self _ _
    exact (aggregateScores_noNull demoScores).1 _ hmem
  · exact (aggregateScores_noNull demoScores).2.2.2

/-- C10: when every input score is null, aggregation still returns the
compound result named CompoundCodeGenScore with score 0, together with
empty individual and category lists. -/
theorem aggregateScores_allNull (scores : List ScoreResult)
    (h : ∀ s ∈ scores, s.score = none) :
    aggregateScores scores =
      { individual := [],
        categories := [],
        compound := { name := "CompoundCodeGenScore", score := some 0,
                      metadata := [("categoryCount", JVal.num 0),
                                   ("categories", JVal.strList [])] } } := by
  have hv : scores.filter (fun s => s.score.isSome) = [] :=
    List.filter_eq_nil_iff.mpr (fun s hs => by simp [h s hs])
  have happ : ∀ c, applicableIn scores c = [] := fun c =>
    List.filter_eq_nil_iff.mpr (fun s hs => by simp [h s hs])
  have hpres : presentCategories scores = [] := by
    simp [presentCategories, happ]
  have hind : (aggregateScores scores).individual = [] := by
    rw [agg_individual, hv]
  have hcat : (aggregateScores scores).categories = [] := by
    rw [agg_categories, hpres]
    rfl
  have havg : categoryAvgList scores = [] := by
    rw [categoryAvgList, hpres]
    rfl
  have hcomp := agg_compound scores
  rw [havg, hpres] at hcomp
  conv_lhs => rw [show aggregateScores scores =
    ⟨(aggregateScores scores).individual, (aggregateScores scores).categories,
     (aggregateScores scores).compound⟩ from rfl]
  rw [hind, hcat, hcomp]
  simp [JVal.strList]

/-- All-null demonstration scores. -/
def demoNullScores : List ScoreResult :=
  [{ name := "Syntax_IsValidJS", score := none, metadata := [] },
   { name := "Result_SearchIndexExists", score := none, metadata := [] }]

/-- Witness for C10 at a concrete all-null score list. -/
theorem aggregateScores_allNull_witness :
    aggregateScores demoNullScores =
      { individual := [],
        categories := [],
        compound := { name := "CompoundCodeGenScore", score := some 0,
                      metadata := [("categoryCount", JVal.num 0),
                                   ("categories", JVal.strList [])] } } :=
  aggregateScores_allNull demoNullScores (by simp [demoNullScores])

/-- C3: each semantic scorer checks every pattern of a non-empty list
independently by plain substring containment, returning one result per
pattern named after the pattern entry (mustContain passes iff the
substring occurs, mustNotContain passes iff it does not), and an absent
or empty pattern list yields exactly one not-applicable result. -/
theorem semanticScorers_perPattern (context : ScorerContext) :
    ((context.expected.semantic.bind SemanticExpected.mustContain = none ∨
      context.expected.semantic.bind SemanticExpected.mustContain = some []) →
      mustContain context =
        .one { name := "Semantic_MustContain", score := none, metadata := [] }) ∧
    (∀ l, context.expected.semantic.bind SemanticExpected.mustContain = some l → l ≠ [] →
      mustContain context = .many (l.map fun p =>
        { name := "Semantic_" ++ p.name,
          score := some (if p.pattern.data <:+: context.output.data then 1 else 0),
          metadata := [("pattern", JVal.str p.pattern),
                       ("found", JVal.bool (decide (p.pattern.data <:+: context.output.data)))] })) ∧
    ((context.expected.semantic.bind SemanticExpected.mustNotContain = none ∨
      context.expected.semantic.bind SemanticExpected.mustNotContain = some []) →
      mustNotContain context =
        .one { name := "Semantic_MustNotContain", score := none, metadata := [] }) ∧
    (∀ l, context.expected.semantic.bind SemanticExpected.mustNotContain = some l → l ≠ [] →
      mustNotContain context = .many (l.map fun p =>
        { name := "Semantic_" ++ p.name,
          score := some (if p.pattern.data <:+: context.output.data then 0 else 1),
          metadata := [("pattern", JVal.str p.pattern),
                       ("found", JVal.bool (decide (p.pattern.data <:+: context.output.data))),
                       ("reason", if p.pattern.data <:+: context.output.data then
                          JVal.str ("Found forbidden pattern: " ++ p.pattern)
                        else JVal.undefined)] })) := by
  refine ⟨?_, ?_, ?_, ?_⟩
  · rintro (h | h) <;> simp [mustContain, h]
  · intro l h hne
    have hie : l.isEmpty = false := by
      cases l with
      | nil => exact absurd rfl hne
      | cons a t => rfl
    simp only [mustContain, h, hie, Bool.false_eq_true, if_false]
    congr 1
    apply List.map_congr_left
    intro p _
    by_cases hP : p.pattern.data <:+: context.output.data <;>
      simp [jsIncludes_eq_decide, hP]
  · rintro (h | h) <;> simp [mustNotContain, h]
  · intro l h hne
    have hie : l.isEmpty = false := by
      cases l with
      | nil => exact absurd rfl hne
      | cons a t => rfl
    simp only [mustNotContain, h, hie, Bool.false_eq_true, if_false]
    congr 1
    apply List.map_congr_left
    intro p _
    by_cases hP : p.pattern.data <:+: context.output.data <;>
      simp [jsIncludes_eq_decide, hP]

/-- Demonstration scorer context for the semantic scorers: two required
patterns, one present and one absent, and an empty forbidden list. -/
def demoSemanticCtx : ScorerContext :=
  { output := "use db and coll",
    expected :=
      { semantic := some
          { mustContain := some [{ pattern := "db", name := "HasDb" },
                                 { pattern := "zzz", name := "HasZzz" }],
            mustNotContain := some [] },
        execution := none,
        result := none },
    executionResult := none }

/-- Witness for C3 at a concrete context: two patterns yield two named
results scored by containment, and the empty forbidden list yields one
not-applicable result. -/
theorem semanticScorers_perPattern_witness :
    mustContain demoSemanticCtx = .many
      [{ name := "Semantic_HasDb", score := some 1,
         metadata := [("pattern", JVal.str "db"), ("found", JVal.bool true)] },
       { name := "Semantic_HasZzz", score := some 0,
         metadata := [("pattern", JVal.str "zzz"), ("found", JVal.bool false)] }] ∧
    mustNotContain demoSemanticCtx =
      .one { name := "Semantic_MustNotContain", score := none, metadata := [] } := by
  constructor
  · have h := (semanticScorers_perPattern demoSemanticCtx).2.1
      [{ pattern := "db", name := "HasDb" }, { pattern := "zzz", name := "HasZzz" }]
      rfl (by simp)
    rw [h]
    rfl
  · exact (semanticScorers_perPattern demoSemanticCtx).2.2.1 (Or.inr rfl)

/-- The concrete scorer context of claim C4: generated text that
mentions createSearchIndex( without a leading dot, checked against the
dotted pattern. -/
def c4Context : ScorerContext :=
  { output := "createSearchIndex()",
    expected :=
      { semantic := some
          { mustContain := some [{ pattern := ".createSearchIndex(", name := "UsesCreate" }],
            mustNotContain := none },
        execution := none,
        result := none },
    executionResult := none }

/-- Counterexample to C4 as stated: this generated text does contain the
substring createSearchIndex(, yet the MustContain result for the dotted
pattern .createSearchIndex( is score 0, not 1, because containment is
checked against the full dotted pattern. -/
theorem mustContain_dotted_counterexample :
    jsIncludes "createSearchIndex()" "createSearchIndex(" = true ∧
    mustContain c4Context = .many
      [{ name := "Semantic_UsesCreate", score := some 0,
         metadata := [("pattern", JVal.str ".createSearchIndex("),
                      ("found", JVal.bool false)] }] ∧
    some (0 : ℚ) ≠ some (1 : ℚ) := by
  refine ⟨rfl, rfl, ?_⟩
  simp

/-- The expected assertions of claim C4 (amended). -/
def c4Expected : EvalCaseExpected :=
  { semantic := some
      { mustContain := some [{ pattern := ".createSearchIndex(", name := "UsesCreate" }],
        mustNotContain := none },
    execution := none,
    result := none }

/-- C4 (amended): for every generated text that contains the full dotted
substring .createSearchIndex(, the MustContain result named
Semantic_UsesCreate has score 1. -/
theorem mustContain_dotted_pass (output : String)
    (h : jsIncludes output ".createSearchIndex(" = true) :
    mustContain { output := output, expected := c4Expected, executionResult := none } =
      .many [{ name := "Semantic_UsesCreate", score := some 1,
               metadata := [("pattern", JVal.str ".createSearchIndex("),
                            ("found", JVal.bool true)] }] := by
  simp [mustContain, c4Expected, h]

/-- Witness for the amended C4 at a concrete generated text carrying the
dotted call. -/
theorem mustContain_dotted_pass_witness :
    mustContain { output := "await coll.createSearchIndex(model);",
                  expected := c4Expected, executionResult := none } =
      .many [{ name := "Semantic_UsesCreate", score := some 1,
               metadata := [("pattern", JVal.str ".createSearchIndex("),
                            ("found", JVal.bool true)] }] :=
  mustContain_dotted_pass "await coll.createSearchIndex(model);" rfl

/-- C5: when the case requests shouldSucceed, the Execution_Succeeds
scorer scores 1 exactly when an execution result is present and
successful, scores 0 with a diagnostic when no execution result exists,
and never returns a null score. -/
theorem succeeds_requested (context : ScorerContext)
    (h : context.expected.execution.bind ExecutionExpected.shouldSucceed = some true) :
    ((succeeds context).score = some 1 ↔
      ∃ er, context.executionResult = some er ∧ er.success = true) ∧
    (context.executionResult = none →
      succeeds context =
        { name := "Execution_Succeeds", score := some 0,
          metadata := [("error",
            JVal.str "Execution result not available - code was not executed")] }) ∧
    ((succeeds context).score ≠ none) := by
  refine ⟨?_, ?_, ?_⟩
  · constructor
    · intro hs
      cases her : context.executionResult with
      | none =>
        simp [succeeds, h, her] at hs
      | some er =>
        refine ⟨er, rfl, ?_⟩
        cases hsu : er.success
        · simp [succeeds, h, her, hsu] at hs
        · rfl
    · rintro ⟨er, her, hsu⟩
      simp [succeeds, h, her, hsu]
  · intro her
    simp [succeeds, h, her]
  · cases her : context.executionResult with
    | none =>
      simp [succeeds, h, her]
    | some er =>
      cases hsu : er.success <;> simp [succeeds, h, her, hsu]

/-- Demonstration context for the execution scorer: success requested
but execution never ran. -/
def demoExecCtx : ScorerContext :=
  { output := "",
    expected :=
      { semantic := none,
        execution := some { shouldSucceed := some true },
        result := none },
    executionResult := none }

/-- Witness for C5 at a concrete context without an execution result:
hard fail with a diagnostic, not null. -/
theorem succeeds_requested_witness :
    succeeds demoExecCtx =
      { name := "Execution_Succeeds", score := some 0,
        metadata := [("error",
          JVal.str "Execution result not available - code was not executed")] } ∧
    (succeeds demoExecCtx).score ≠ none :=
  ⟨(succeeds_requested demoExecCtx rfl).2.1 rfl,
   (succeeds_requested demoExecCtx rfl).2.2⟩

/-- Counterexample to C6 as stated: when the rewrite fires, the executor
trims the whole code first, so a non-final line carrying leading
whitespace is altered too; here line one loses its indentation. -/
theorem normalizeFinalCall_counterexample :
    splitLines "  let a = 1;\nfoo();" = ["  let a = 1;", "foo();"] ∧
    normalizeFinalCall "  let a = 1;\nfoo();" = "let a = 1;\nawait foo();" ∧
    splitLines (normalizeFinalCall "  let a = 1;\nfoo();") =
      ["let a = 1;", "await foo();"] ∧
    "let a = 1;" ≠ "  let a = 1;" :=
  ⟨rfl, rfl, rfl, by decide⟩

/-- C6 (amended): the normalization leaves the code byte-for-byte
unchanged unless the trimmed final line is a bare non-awaited call of
the identifier-parens shape; when it is, the result is the trimmed code
with only its final line prefixed by await and every earlier trimmed
line kept verbatim. -/
theorem normalizeFinalCall_characterization (code : String) :
    (¬ (matchesBareCall (jsTrim (((splitLines (jsTrim code)).getLast?).getD "")) = true ∧
        jsStartsWith (jsTrim (((splitLines (jsTrim code)).getLast?).getD "")) "await " = false) →
      normalizeFinalCall code = code) ∧
    ((matchesBareCall (jsTrim (((splitLines (jsTrim code)).getLast?).getD "")) = true ∧
      jsStartsWith (jsTrim (((splitLines (jsTrim code)).getLast?).getD "")) "await " = false) →
      normalizeFinalCall code =
        joinNl ((splitLines (jsTrim code)).dropLast ++
          ["await " ++ ((splitLines (jsTrim code)).getLast?).getD ""])) := by
  constructor
  · intro hnot
    have hcond : (matchesBareCall (jsTrim (((splitLines (jsTrim code)).getLast?).getD "")) &&
        !(jsStartsWith (jsTrim (((splitLines (jsTrim code)).getLast?).getD "")) "await ")) =
          false := by
      cases hm : matchesBareCall (jsTrim (((splitLines (jsTrim code)).getLast?).getD ""))
      · rfl
      · cases hsw : jsStartsWith (jsTrim (((splitLines (jsTrim code)).getLast?).getD "")) "await "
        · exact absurd ⟨hm, hsw⟩ hnot
        · simp [hsw]
    simp only [normalizeFinalCall, hcond, Bool.false_eq_true, if_false]
  · rintro ⟨hm, hsw⟩
    have hne : splitLines (jsTrim code) ≠ [] := by
      intro hnil
      rw [hnil] at hm
      exact absurd hm (by decide)
    have hcond : (matchesBareCall (jsTrim (((splitLines (jsTrim code)).getLast?).getD "")) &&
        !(jsStartsWith (jsTrim (((splitLines (jsTrim code)).getLast?).getD "")) "await ")) =
          true := by
      rw [hm, hsw]
      rfl
    simp only [normalizeFinalCall, hcond, if_true]
    rw [set_last_eq _ _ hne, getD_last_eq _ _ hne]

/-- Witness for the amended C6: a two-line program with a bare final
call has only its final line awaited, and an already-awaited final line
leaves the code untouched. -/
theorem normalizeFinalCall_characterization_witness :
    normalizeFinalCall "x = 1\nfoo();" = "x = 1\nawait foo();" ∧
    normalizeFinalCall "await foo();" = "await foo();" :=
  ⟨((normalizeFinalCall_characterization "x = 1\nfoo();").2 ⟨rfl, rfl⟩).trans rfl,
   (normalizeFinalCall_characterization "await foo();").1 (by decide)⟩

/-- C7: the executor never propagates an exception: for every outcome
environment it returns an ok result, a missing connection string gives
an early failure without external calls, otherwise the connection is
always released, thrown errors (including the timeout) become failure
results carrying the elapsed time, normal completion yields the output
value with the elapsed time, and errors thrown while releasing the
connection never change the returned result. -/
theorem executeMongoDBCode_total (env : ExecEnv) (code : String) (cs : Option String) :
    ∃ r tr, executeMongoDBCodeEM env code cs [] = (Except.ok r, tr) ∧
      (uriOf cs env.envUri = none →
        r = { success := false, error := some noUriError,
              output := none, executionTime := none } ∧ tr = []) ∧
      (uriOf cs env.envUri ≠ none →
        ExecEvent.closeConn ∈ tr ∧
        (∀ e, env.connect = Except.error e →
          r = { success := false, error := some e, output := none,
                executionTime := some env.elapsed }) ∧
        (env.connect = Except.ok () →
          (∀ e, env.runScript (wrapCode (normalizeFinalCall code)) = Except.error e →
            r = { success := false, error := some e, output := none,
                  executionTime := some env.elapsed }) ∧
          (∀ v, env.runScript (wrapCode (normalizeFinalCall code)) = Except.ok v →
            r = { success := true, error := none, output := some v,
                  executionTime := some env.elapsed }))) ∧
      (∀ c, (executeMongoDBCodeEM { env with closeConn := c } code cs []).1 =
        Except.ok r) := by
  cases huri : uriOf cs env.envUri with
  | none =>
    refine ⟨{ success := false, error := some noUriError,
              output := none, executionTime := none }, [], ?_, ?_, ?_, ?_⟩
    · simp [executeMongoDBCodeEM, huri, EM.pure]
    · exact fun _ => ⟨rfl, rfl⟩
    · exact fun hne => absurd rfl hne
    · intro c
      simp [executeMongoDBCodeEM, huri, EM.pure]
  | some u =>
    cases hc : env.connect with
    | error e =>
      refine ⟨{ success := false, error := some e, output := none,
                executionTime := some env.elapsed },
              [ExecEvent.connect, ExecEvent.closeConn], ?_, ?_, ?_, ?_⟩
      · cases hcc : env.closeConn <;>
          simp [executeMongoDBCodeEM, huri, hc, hcc, EM.tryFinally, EM.tryCatch,
            EM.attempt, EM.pure, EM.bind, monadEM]
      · intro hno
        exact Option.noConfusion hno
      · intro _
        refine ⟨by simp, fun e2 he2 => ?_, fun hok => Except.noConfusion hok⟩
        cases he2
        rfl
      · intro c
        cases c <;>
          simp [executeMongoDBCodeEM, huri, hc, EM.tryFinally, EM.tryCatch,
            EM.attempt, EM.pure, EM.bind, monadEM]
    | ok uu =>
      cases uu
      cases hr : env.runScript (wrapCode (normalizeFinalCall code)) with
      | error e =>
        refine ⟨{ success := false, error := some e, output := none,
                  executionTime := some env.elapsed },
                [ExecEvent.connect, ExecEvent.runScript, ExecEvent.closeConn], ?_, ?_, ?_, ?_⟩
        · cases hcc : env.closeConn <;>
            simp [executeMongoDBCodeEM, huri, hc, hr, hcc, EM.tryFinally, EM.tryCatch,
              EM.attempt, EM.pure, EM.bind, monadEM]
        · intro hno
          exact Option.noConfusion hno
        · intro _
          refine ⟨by simp, fun e2 he2 => Except.noConfusion he2, fun _ => ?_⟩
          refine ⟨fun e2 he2 => ?_, fun v hv => Except.noConfusion hv⟩
          cases he2
          rfl
        · intro c
          cases c <;>
            simp [executeMongoDBCodeEM, huri, hc, hr, EM.tryFinally, EM.tryCatch,
              EM.attempt, EM.pure, EM.bind, monadEM]
      | ok v =>
        refine ⟨{ success := true, error := none, output := some v,
                  executionTime := some env.elapsed },
                [ExecEvent.connect, ExecEvent.runScript, ExecEvent.closeConn], ?_, ?_, ?_, ?_⟩
        · cases hcc : env.closeConn <;>
            simp [executeMongoDBCodeEM, huri, hc, hr, hcc, EM.tryFinally, EM.tryCatch,
              EM.attempt, EM.pure, EM.bind, monadEM]
        · intro hno
          exact Option.noConfusion hno
        · intro _
          refine ⟨by simp, fun e2 he2 => Except.noConfusion he2, fun _ => ?_⟩
          refine ⟨fun e2 he2 => Except.noConfusion he2, fun v2 hv2 => ?_⟩
          cases hv2
          rfl
        · intro c
          cases c <;>
            simp [executeMongoDBCodeEM, huri, hc, hr, EM.tryFinally, EM.tryCatch,
              EM.attempt, EM.pure, EM.bind, monadEM]


/-- A demonstration executor environment whose close call fails. -/
def demoExecEnv : ExecEnv :=
  { envUri := some "mongodb://localhost",
    connect := Except.ok (),
    runScript := fun _ => Except.ok (JVal.str "done"),
    closeConn := Except.error "close failed",
    elapsed := 17 }

/-- Witness for C7 at a concrete environment: the run succeeds, the
connection is released, and the close failure is swallowed. -/
theorem executeMongoDBCode_total_witness :
    ∃ r tr, executeMongoDBCodeEM demoExecEnv "foo();" none [] = (Except.ok r, tr) ∧
      ExecEvent.closeConn ∈ tr ∧
      r = { success := true, error := none, output := some (JVal.str "done"),
            executionTime := some 17 } := by
  rcases executeMongoDBCode_total demoExecEnv "foo();" none with
    ⟨r, tr, heq, _, hsome, _⟩
  rcases hsome (by simp [uriOf, demoExecEnv]) with ⟨hclose, _, hok⟩
  exact ⟨r, tr, heq, hclose, (hok rfl).2 (JVal.str "done") rfl⟩

/-- The drop specification used by the concrete cleanup examples. -/
def demoDropSpec : DropSearchIndexSpec :=
  { database := "sample_mflix", collection := "movies", indexName := "idx" }

/-- The cleanup entry used by the concrete cleanup examples. -/
def demoCleanup : Option EvalCaseCleanup :=
  some { dropSearchIndex := some demoDropSpec }

/-- A cleanup environment in which every step succeeds, the listed
indexes never include the target, and closing the connection fails. -/
def demoFailCloseEnv : CleanupEnv :=
  { uriSet := true,
    connect := Except.ok (),
    listResults := fun _ => Except.ok [],
    dropIndex := Except.ok (),
    closeConn := Except.error "connection close failed",
    pollLimit := 0 }

/-- Counterexample to C8 as stated: the finally block of the cleanup
closes the client without a handler of its own, so an error thrown while
closing the connection propagates to the caller. -/
theorem runCleanup_counterexample :
    (runCleanupEM demoFailCloseEnv demoCleanup 60 []).1 =
      Except.error "connection close failed" := rfl

/-- A try/catch that swallows every error around a body, followed by a
finally that issues one succeeding call, always returns normally. -/
theorem tryFinally_close_ok {ε : Type} (body : EM ε Unit) (cl : Except String Unit)
    (ev : ε) (hcl : cl = Except.ok ()) (tr : List ε) :
    ∃ tr2, EM.tryFinally (EM.tryCatch body (fun _ => EM.pure ()))
      (do
        EM.attempt cl ev
        EM.pure ()) tr = (Except.ok (), tr2) := by
  subst hcl
  rcases hb : body tr with ⟨res, tr2⟩
  cases res with
  | ok a =>
    cases a
    exact ⟨tr2 ++ [ev], by
      simp [EM.tryFinally, EM.tryCatch, EM.attempt, EM.pure, EM.bind, monadEM, hb]⟩
  | error e =>
    exact ⟨tr2 ++ [ev], by
      simp [EM.tryFinally, EM.tryCatch, EM.attempt, EM.pure, EM.bind, monadEM, hb]⟩

/-- C8 (amended): the cleanup run swallows every error of its own work,
so whenever closing the connection succeeds it returns normally; and
when the first listing shows that the named index does not exist, no
drop request is ever issued, whatever else happens. -/
theorem runCleanup_amended (env : CleanupEnv) (cleanup : Option EvalCaseCleanup)
    (maxWaitSeconds : ℕ) :
    (env.closeConn = Except.ok () →
      ∃ tr, runCleanupEM env cleanup maxWaitSeconds [] = (Except.ok (), tr)) ∧
    (∀ d names, cleanup = some { dropSearchIndex := some d } →
      env.listResults 0 = Except.ok names → d.indexName ∉ names →
      CleanupEvent.dropIndex ∉ (runCleanupEM env cleanup maxWaitSeconds []).2) := by
  constructor
  · intro hclose
    cases cleanup with
    | none => exact ⟨[], rfl⟩
    | some c =>
      cases hd : c.dropSearchIndex with
      | none => exact ⟨[], by simp [runCleanupEM, hd, EM.pure]⟩
      | some d =>
        cases hu : env.uriSet with
        | false =>
          exact ⟨[], by simp [runCleanupEM, hd, dropSearchIndexEM, hu, EM.pure]⟩
        | true =>
          simp only [runCleanupEM, hd, dropSearchIndexEM, hu, Bool.not_true,
            Bool.false_eq_true, if_false]
          exact tryFinally_close_ok _ env.closeConn CleanupEvent.closeConn hclose []
  · intro d names hcle hlist hnot
    subst hcle
    cases hu : env.uriSet with
    | false =>
      simp [runCleanupEM, dropSearchIndexEM, hu, EM.pure]
    | true =>
      cases hc : env.connect with
      | error e =>
        cases hcc : env.closeConn <;>
          simp [runCleanupEM, dropSearchIndexEM, hu, hc, hcc, EM.tryFinally,
            EM.tryCatch, EM.attempt, EM.pure, EM.bind, monadEM]
      | ok a =>
        cases a
        cases hcc : env.closeConn <;>
          simp [runCleanupEM, dropSearchIndexEM, hu, hc, hcc, hlist, hnot,
            EM.tryFinally, EM.tryCatch, EM.attempt, EM.pure, EM.bind, monadEM]

/-- A cleanup environment in which everything succeeds and the target
index is never listed. -/
def demoCleanEnv : CleanupEnv :=
  { uriSet := true,
    connect := Except.ok (),
    listResults := fun _ => Except.ok ["other"],
    dropIndex := Except.ok (),
    closeConn := Except.ok (),
    pollLimit := 3 }

/-- Witness for the amended C8 at a concrete environment: the run
returns normally and never issues a drop for the absent index. -/
theorem runCleanup_amended_witness :
    (∃ tr, runCleanupEM demoCleanEnv demoCleanup 60 [] = (Except.ok (), tr)) ∧
    CleanupEvent.dropIndex ∉ (runCleanupEM demoCleanEnv demoCleanup 60 []).2 :=
  ⟨(runCleanup_amended demoCleanEnv demoCleanup 60).1 rfl,
   (runCleanup_amended demoCleanEnv demoCleanup 60).2 demoDropSpec
     ["other"] rfl rfl (by decide)⟩

/-- The single not-applicable result of the verifier. -/
def verifierNullResult : ScoreResult :=
  { name := "Result_SearchIndexExists", score := none, metadata := [] }

/-- The single short-circuit failure result of the verifier. -/
def verifierExecFailResult : ScoreResult :=
  { name := "Result_SearchIndexExists", score := some 0,
    metadata := [("reason", JVal.str "Cannot verify index - code execution failed")] }

/-- C9: the result verifier returns a single not-applicable result when
the case declares no result expectation, and short-circuits to a single
failing result with a diagnostic reason, issuing no external call at
all, when the expectation is declared but execution is absent or
failed. -/
theorem searchIndexExists_shortCircuit (env : VerifyEnv) (context : ScorerContext) :
    (context.expected.result.bind ResultExpected.searchIndexExists = none →
      searchIndexExistsEM env context [] =
        (Except.ok (.one verifierNullResult), [])) ∧
    (∀ cfg, context.expected.result.bind ResultExpected.searchIndexExists = some cfg →
      execSucceeded context.executionResult = false →
      searchIndexExistsEM env context [] =
        (Except.ok (.one verifierExecFailResult), [])) := by
  constructor
  · intro h
    simp [searchIndexExistsEM, h, EM.pure, verifierNullResult]
  · intro cfg h hexec
    simp [searchIndexExistsEM, h, hexec, EM.pure, verifierExecFailResult]

/-- The search index expectation used by the concrete verifier example. -/
def demoSearchSpec : SearchIndexExistsSpec :=
  { database := "sample_mflix", collection := "movies",
    indexName := "default", config := none }

/-- A verifier context of claim C9: an expectation is declared but the
code never executed. -/
def demoVerifyCtx : ScorerContext :=
  { output := "",
    expected :=
      { semantic := none,
        execution := none,
        result := some { searchIndexExists := some demoSearchSpec } },
    executionResult := none }

/-- A verifier context without any result expectation. -/
def demoNoResultCtx : ScorerContext :=
  { output := "",
    expected := { semantic := none, execution := none, result := none },
    executionResult := none }

/-- A verifier environment; its outcomes are irrelevant because the
short-circuit paths never consult it. -/
def demoVerifyEnv : VerifyEnv :=
  { uriSet := true,
    connect := Except.ok (),
    listResult := Except.ok [],
    closeConn := Except.ok () }

/-- Witness for C9 at concrete inputs: failed execution short-circuits
to a failing result with no external call, and an undeclared expectation
yields a single not-applicable result. -/
theorem searchIndexExists_shortCircuit_witness :
    searchIndexExistsEM demoVerifyEnv demoVerifyCtx [] =
      (Except.ok (.one verifierExecFailResult), []) ∧
    searchIndexExistsEM demoVerifyEnv demoNoResultCtx [] =
      (Except.ok (.one verifierNullResult), []) :=
  ⟨(searchIndexExists_shortCircuit demoVerifyEnv demoVerifyCtx).2
     demoSearchSpec rfl rfl,
   (searchIndexExists_shortCircuit demoVerifyEnv demoNoResultCtx).1 rfl⟩

end CodeGenEval
